import Mathlib

/-!
# Verification of the VC_AI_Incubator workflow engine

Shallow embedding of the orchestration engine of the VC_AI_Incubator
repository (`vc_agents/pipeline/run.py`, `vc_agents/pipeline/report.py`,
`vc_agents/providers/base.py`) together with proofs about its behaviour.

Conventions of the embedding:
* Python dicts used as records become structures; the checkpoint dict
  (whose key set varies) becomes a partial map `String → Option CVal`.
* JSON numbers are modelled as rationals (`ℚ`); `round(x, 1)` and the
  `"%.1f"` format are modelled as round-half-to-even at one decimal,
  which is what CPython's float rounding produces on the values that
  occur here.
* Calls to an external generative actor are modelled by an oracle giving
  each attempt's outcome; the engine code around the calls is translated
  directly.
* Thread pools are modelled by an explicit completion schedule (the order
  in which worker threads finish); `concurrent.futures` is otherwise
  opaque latency.
-/

namespace VCIncubator

/-- `MIN_ROUNDS_BEFORE_CONVERGENCE` from `run.py` line 50. -/
def MIN_ROUNDS_BEFORE_CONVERGENCE : Nat := 2

/-! ## Retry-Validate wrapper (`retry_json_call`, run.py lines 297-330)

One attempt of the loop body (provider.generate + parse_json +
normalize + validate_schema) either yields a parsed value or throws; the
oracle `outcome` records, for each attempt number, which of the two
happens and with which error text (`str(exc)` of the caught exception).
The loop itself is translated directly: attempts are numbered `1..max`,
the first success returns, and exhausting the budget raises
`RuntimeError(f"{context} failed after {max_retries} attempts: {last_error}")`. -/

inductive AttemptOutcome (α : Type) where
  | success (v : α)
  | failure (err : String)
deriving DecidableEq, Repr

/-- Python prints `None` for an absent last error (`max_retries = 0`). -/
def pyOptStr : Option String → String
  | none => "None"
  | some s => s

/-- The `for attempt in range(1, max_retries + 1)` loop of
`retry_json_call`, together with the trailing `raise RuntimeError`.
Also returns how many attempts were actually made (the number of
provider calls issued). -/
def retryGo {α : Type} (outcome : Nat → AttemptOutcome α) (context : String)
    (max_retries : Nat) : List Nat → Option String → Nat → (Except String α) × Nat
  | [], last, used =>
      (Except.error (context ++ " failed after " ++ toString max_retries ++
        " attempts: " ++ pyOptStr last), used)
  | a :: rest, last, used =>
      match outcome a with
      | AttemptOutcome.success v => (Except.ok v, used + 1)
      | AttemptOutcome.failure e => retryGo outcome context max_retries rest (some e) (used + 1)

/-- `retry_json_call` (run.py lines 297-330), instrumented with the
attempt count. -/
def retryRun {α : Type} (outcome : Nat → AttemptOutcome α) (context : String)
    (max_retries : Nat) : (Except String α) × Nat :=
  retryGo outcome context max_retries (List.range' 1 max_retries) none 0

/-- `retry_json_call`'s observable return/raise behaviour. -/
def retry_json_call {α : Type} (outcome : Nat → AttemptOutcome α) (context : String)
    (max_retries : Nat) : Except String α :=
  (retryRun outcome context max_retries).1

/-! ## Preflight validator (`run_preflight`, run.py lines 61-98)

A provider is known by its name and model string; whether it is a
`MockProvider` (the `isinstance` check at line 85); and what its one
probe call `generate("Reply: ok", system="", max_tokens=4)` would do:
return text or raise with message `str(exc)`. -/

structure PreflightResult where
  name : String
  ok : Bool
  detail : String
deriving DecidableEq, Repr

structure Provider where
  name : String
  model : String
  isMock : Bool
  probeGen : Except String String
deriving Repr

/-- Python's slice `s[:n]` (by code point, like `List Char`). -/
def pyTruncate (s : String) (n : Nat) : String :=
  String.mk (s.toList.take n)

/-- The local `probe` closure of `run_preflight` (run.py lines 84-91);
the failure detail is `str(exc)[:300]`. -/
def probe (p : Provider) : PreflightResult :=
  if p.isMock then ⟨p.name, true, "mock — skipped"⟩
  else
    match p.probeGen with
    | Except.ok _ => ⟨p.name, true, "OK (model=" ++ p.model ++ ")"⟩
    | Except.error e => ⟨p.name, false, pyTruncate e 300⟩

/-- `run_preflight` (run.py lines 74-98).  The probes are fanned out with
`_map_concurrently`, which yields one result per provider in input order
(claim C10); the gather is therefore a `map`. -/
def run_preflight (providers : List Provider) : Except String Unit :=
  let results := providers.map probe
  let failures := results.filter (fun r => !r.ok)
  if failures.isEmpty then Except.ok ()
  else
    Except.error ("Pre-flight failed:\n" ++
      String.intercalate "\n"
        (failures.map (fun r => "  - " ++ r.name ++ ": " ++ r.detail)))

/-! ## Concurrent task runner (`_map_concurrently`, run.py lines 391-398)

With `concurrency <= 1` the generator yields `func(item)` sequentially.
Otherwise it iterates `ThreadPoolExecutor.map(func, items)`, which runs
tasks on a worker pool but yields results in submission order.  The pool
is modelled by an explicit `schedule`: the order in which worker threads
finish tasks (task = index into `items`).  Results are stored keyed by
index as they complete and read back in index order. -/

def completionStore {α β : Type} (f : α → β) (items : List α)
    (schedule : List Nat) : List (Nat × β) :=
  schedule.filterMap (fun i => (items.get? i).map (fun a => (i, f a)))

/-- Read a completed task's result out of the store by its index. -/
def storeLookup {β : Type} (i : Nat) : List (Nat × β) → Option β
  | [] => none
  | (k, v) :: rest => if i = k then some v else storeLookup i rest

def map_concurrently {α β : Type} (f : α → β) (items : List α)
    (concurrency : Nat) (schedule : List Nat) : List β :=
  if concurrency ≤ 1 then items.map f
  else (List.range items.length).filterMap
    (fun i => storeLookup i (completionStore f items schedule))

/-! ## Checkpoint store (run.py `_save_checkpoint`/`_load_checkpoint` and
the four call sites that write a checkpoint)

A checkpoint is the JSON object in `checkpoint.json`: a partial map from
keys to values (booleans and string lists occur).  Each write site builds
a dict literal and `_save_checkpoint` replaces the file with it, so a
write site is a function from the previously persisted checkpoint to the
new one. -/

inductive CVal where
  | vBool (b : Bool)
  | vList (l : List String)
deriving DecidableEq, Repr

def Checkpoint := String → Option CVal

/-- Missing `checkpoint.json` loads as `{}` via `or {}`. -/
def emptyCheckpoint : Checkpoint := fun _ => none

/-- run.py line 1030: `_save_checkpoint(run_dir, {"stage1_complete": True})` —
the dict literal does not mention the previous checkpoint at all. -/
def stage1CompleteWrite (_cp : Checkpoint) : Checkpoint :=
  fun k => if k = "stage1_complete" then some (CVal.vBool true) else none

/-- run.py lines 1075-1080:
`_save_checkpoint(run_dir, {**existing_cp, "stage1_complete": True, "stage2_complete": True})`. -/
def stage2CompleteWrite (cp : Checkpoint) : Checkpoint :=
  fun k =>
    if k = "stage1_complete" then some (CVal.vBool true)
    else if k = "stage2_complete" then some (CVal.vBool true)
    else cp k

/-- run.py lines 1086-1092: same merge with all three stage flags. -/
def stage3CompleteWrite (cp : Checkpoint) : Checkpoint :=
  fun k =>
    if k = "stage1_complete" then some (CVal.vBool true)
    else if k = "stage2_complete" then some (CVal.vBool true)
    else if k = "stage3_complete" then some (CVal.vBool true)
    else cp k

/-- run.py lines 802-808, the per-founder write inside `run_stage2`'s
gather loop:
`_save_checkpoint(run_dir, {**(_load_checkpoint(run_dir) or {}), "stage2_founders_done": list(final_plans.keys())})`
where `final_plans` is a dict local to this `run_stage2` invocation. -/
def stage2FounderWrite (cp : Checkpoint) (doneNow : List String) : Checkpoint :=
  fun k => if k = "stage2_founders_done" then some (CVal.vList doneNow) else cp k

/-- The gather loop of `run_stage2` (run.py lines 793-808): founders of
this invocation complete one by one; after each completion the keys of
the local `final_plans` dict (in insertion order) are written. -/
def stage2CheckpointRun : Checkpoint → List String → List String → Checkpoint
  | cp, _, [] => cp
  | cp, doneSoFar, f :: rest =>
    stage2CheckpointRun (stage2FounderWrite cp (doneSoFar ++ [f])) (doneSoFar ++ [f]) rest

/-! ## Stage 1 — Ideate and Select (`run_stage1`, run.py lines 406-576)

Idea cards and feedback records are dicts; the selection step reads
`idea["idea_id"]`, `f["idea_id"]`, `f.get("score", 5)` and carries the
idea dict through unchanged, so the embedding keeps an id plus an opaque
payload standing for the remaining fields. -/

structure Idea where
  idea_id : String
  payload : String
deriving DecidableEq, Repr

structure Feedback where
  idea_id : String
  reviewer_provider : String
  score : Option ℚ
deriving DecidableEq, Repr

structure Selection where
  selected_idea_id : String
  founder_provider : String
  reasoning : String
  refined_idea : Idea
deriving DecidableEq, Repr

/-- Step 1c produces, per founder, either a synthesized Selection built
without any actor generation call, or issues a Retry-Validate selection
call (`retry_json_call` with `SELECTION_SCHEMA`) whose value comes from
the actor. -/
inductive SelectionOutcome where
  | auto (s : Selection)
  | llmCall (founder : String)
deriving DecidableEq, Repr

/-- `[f for f in all_feedback if f["idea_id"] == idea["idea_id"]]` (run.py line 528). -/
def feedbackFor (allFeedback : List Feedback) (ideaId : String) : List Feedback :=
  allFeedback.filter (fun f => f.idea_id == ideaId)

/-- run.py lines 529-532: mean of `f.get("score", 5)`, defaulting to `5.0`
when the idea got no feedback. -/
def autoAvgScore (fbs : List Feedback) : ℚ :=
  if fbs.isEmpty then 5
  else (fbs.map (fun f => f.score.getD 5)).sum / (fbs.length : ℚ)

/-- A single-quote character, used by the reasoning template. -/
def sq : String := String.singleton (Char.ofNat 39)

/-- Round half-to-even, the rounding CPython's `round`/`format` apply. -/
def roundHalfEven (q : ℚ) : ℤ :=
  if q - ⌊q⌋ < 1/2 then ⌊q⌋
  else if 1/2 < q - ⌊q⌋ then ⌊q⌋ + 1
  else if Even ⌊q⌋ then ⌊q⌋ else ⌊q⌋ + 1

/-- Python's `f"{x:.1f}"` for the non-negative values that occur here. -/
def fmtFixed1 (q : ℚ) : String :=
  let n := roundHalfEven (10 * q)
  toString (n / 10) ++ "." ++ toString (n % 10).natAbs

/-- The deterministic reasoning template of the auto-select branch
(run.py lines 536-540). -/
def autoSelectReasoning (ideaId : String) (avg : ℚ) : String :=
  "Auto-selected the only idea " ++ sq ++ ideaId ++ sq ++ " (single-idea mode). " ++
    "Advisor feedback average score: " ++ fmtFixed1 avg ++ ". " ++
    "Proceeding with this idea incorporating advisor suggestions."

/-- Step 1c of `run_stage1` (run.py lines 516-569).  The branch is on the
configured `ideas_per_provider`; the auto branch reads `my_ideas[0]`
(`none` models the `IndexError` on an empty idea list). -/
def stage1Select (ideasPerProvider : Nat) (founders : List String)
    (allIdeas : String → List Idea) (allFeedback : List Feedback) :
    List (String × Option SelectionOutcome) :=
  if ideasPerProvider = 1 then
    founders.map (fun f =>
      (f, match allIdeas f with
        | [] => none
        | idea :: _ =>
          let fbs := feedbackFor allFeedback idea.idea_id
          let avg := autoAvgScore fbs
          some (SelectionOutcome.auto
            { selected_idea_id := idea.idea_id
              founder_provider := f
              reasoning := autoSelectReasoning idea.idea_id avg
              refined_idea := idea })))
  else
    founders.map (fun f => (f, some (SelectionOutcome.llmCall f)))

/-- Step 1b task construction (run.py lines 503-510): the triple loop over
`all_ideas.items()`, each founder's ideas, and the advisors, skipping a
pair only when `reviewer.name == provider_name and provider_name in founder_names`.
The founder key of each task is carried for specification purposes. -/
def crossReviewTasks (allIdeasItems : List (String × List Idea))
    (advisors : List String) (founderNames : List String) :
    List (String × Idea × String) :=
  allIdeasItems.flatMap (fun pr =>
    pr.2.flatMap (fun idea =>
      (advisors.filter (fun r => !(r == pr.1 && founderNames.contains pr.1))).map
        (fun r => (pr.1, idea, r))))

/-- Written from the claim: all (idea, advisor) pairs minus those where
the advisor is the idea's founder. -/
def crossReviewTasksSpec (allIdeasItems : List (String × List Idea))
    (advisors : List String) : List (String × Idea × String) :=
  allIdeasItems.flatMap (fun pr =>
    pr.2.flatMap (fun idea =>
      (advisors.filter (fun r => !(r == pr.1))).map (fun r => (pr.1, idea, r))))

/-! ## Stage 2 — Build and Iterate (`_run_founder_stage2`, run.py lines 619-790)

The claims concern the round loop's termination test (lines 649, 738-764)
in its default (non-deliberation) form.  The reviews each round's
concurrent advisor calls would return are supplied as an oracle
`reviews : round number → review list`; the loop body's other effects
(plan revision, persistence, events) do not feed back into the test. -/

structure Review where
  ready_for_pitch : Bool
  readiness_score : ℚ
deriving DecidableEq, Repr

/-- `all(r.get("ready_for_pitch", False) for r in round_reviews)` (line 738). -/
def roundAllReady (rs : List Review) : Bool :=
  rs.all (fun r => r.ready_for_pitch)

/-- Lines 739-742: mean readiness score, `0.0` for an empty review list. -/
def roundAvgScore (rs : List Review) : ℚ :=
  if rs.isEmpty then 0
  else (rs.map (fun r => r.readiness_score)).sum / (rs.length : ℚ)

/-- The convergence test of line 758:
`round_num >= MIN_ROUNDS_BEFORE_CONVERGENCE and all_ready and avg_score >= 7.5`. -/
def convergedAt (reviews : Nat → List Review) (r : Nat) : Bool :=
  decide (MIN_ROUNDS_BEFORE_CONVERGENCE ≤ r) && roundAllReady (reviews r) &&
    decide ((15 : ℚ) / 2 ≤ roundAvgScore (reviews r))

/-- The `for round_num in range(1, max_iterations + 1)` loop (line 649)
with its two `break`s (lines 758-764), reduced to its exit behaviour:
which round the loop exits in, and whether it exited through the
convergence test (`true`) or through the max-iterations stop (`false`).
The fuel always suffices: the loop runs at most `maxIter` rounds. -/
def stage2LoopAux (reviews : Nat → List Review) (maxIter : Nat) :
    Nat → Nat → Nat × Bool
  | r, 0 => (r, false)
  | r, fuel + 1 =>
    if convergedAt reviews r then (r, true)
    else if r = maxIter then (r, false)
    else stage2LoopAux reviews maxIter (r + 1) fuel

def stage2Exit (reviews : Nat → List Review) (maxIter : Nat) : Nat × Bool :=
  stage2LoopAux reviews maxIter 1 maxIter

/-! ## Portfolio report (`build_portfolio_report`, report.py lines 12-54)

`rows.sort(key=lambda r: (-r["investors_in"], -r["avg_conviction"]))` is
Python's stable sort by the stored (already rounded) conviction; it is
modelled by Mathlib's `insertionSort`, which is the stable sort for a
total preorder.  `round(x, 1)` is round half-to-even at one decimal. -/

structure Pitch where
  idea_id : String
  elevator_pitch : String
deriving DecidableEq, Repr

structure Decision where
  idea_id : String
  decision : String
  conviction_score : ℚ
deriving DecidableEq, Repr

structure Plan where
  founder_provider : String
  idea_id : String
  funding_ask_amount : String
deriving DecidableEq, Repr

structure PortfolioRow where
  rank : Nat
  founder : String
  idea_id : String
  elevator_pitch : String
  investors_in : Nat
  investors_total : Nat
  avg_conviction : ℚ
  funding_ask : String
deriving DecidableEq, Repr

/-- `round(x, 1)` of report.py line 45. -/
def roundTo1 (q : ℚ) : ℚ :=
  (roundHalfEven (10 * q) : ℚ) / 10

/-- The decisions grouped to one founder's idea (report.py line 30). -/
def decisionsFor (decisions : List Decision) (ideaId : String) : List Decision :=
  decisions.filter (fun d => d.idea_id == ideaId)

/-- The exact (un-rounded) mean conviction of a founder's decisions
(report.py lines 32-36 before the `round`). -/
def meanConviction (decisions : List Decision) (ideaId : String) : ℚ :=
  let pds := decisionsFor decisions ideaId
  if pds.isEmpty then 0
  else (pds.map (fun d => d.conviction_score)).sum / (pds.length : ℚ)

/-- One row of the loop body of `build_portfolio_report`
(report.py lines 25-47), before sorting and rank assignment. -/
def baseRow (plans : String → Plan) (pitches : List Pitch)
    (decisions : List Decision) (name : String) : PortfolioRow :=
  let plan := plans name
  let ideaId := plan.idea_id
  let pitch := pitches.find? (fun p => p.idea_id == ideaId)
  let pds := decisionsFor decisions ideaId
  let investCount := (pds.filter (fun d => d.decision == "invest")).length
  { rank := 0
    founder := name
    idea_id := ideaId
    elevator_pitch := match pitch with | some p => p.elevator_pitch | none => ""
    investors_in := investCount
    investors_total := pds.length
    avg_conviction := roundTo1 (meanConviction decisions ideaId)
    funding_ask := plan.funding_ask_amount }

/-- `a` may be placed before `b` by the sort of report.py line 50:
ascending in Python's key `(-investors_in, -avg_conviction)`, i.e.
descending lexicographically in `(investors_in, avg_conviction)`. -/
def rowLe (a b : PortfolioRow) : Prop :=
  b.investors_in < a.investors_in ∨
    (a.investors_in = b.investors_in ∧ b.avg_conviction ≤ a.avg_conviction)

instance : DecidableRel rowLe := fun a b =>
  inferInstanceAs (Decidable (b.investors_in < a.investors_in ∨
    (a.investors_in = b.investors_in ∧ b.avg_conviction ≤ a.avg_conviction)))

instance : IsTotal PortfolioRow rowLe where
  total a b := by
    rcases lt_trichotomy a.investors_in b.investors_in with h | h | h
    · exact Or.inr (Or.inl h)
    · rcases le_total a.avg_conviction b.avg_conviction with h2 | h2
      · exact Or.inr (Or.inr ⟨h.symm, h2⟩)
      · exact Or.inl (Or.inr ⟨h, h2⟩)
    · exact Or.inl (Or.inl h)

instance : IsTrans PortfolioRow rowLe where
  trans a b c hab hbc := by
    rcases hab with h1 | ⟨h1, h1q⟩ <;> rcases hbc with h2 | ⟨h2, h2q⟩
    · exact Or.inl (h2.trans h1)
    · exact Or.inl (h2 ▸ h1)
    · exact Or.inl (h1 ▸ h2)
    · exact Or.inr ⟨h1.trans h2, h2q.trans h1q⟩

/-- `for i, row in enumerate(rows): row["rank"] = i + 1` (report.py lines 51-52). -/
def assignRanksFrom : Nat → List PortfolioRow → List PortfolioRow
  | _, [] => []
  | i, r :: rest => { r with rank := i + 1 } :: assignRanksFrom (i + 1) rest

/-- `build_portfolio_report` (report.py lines 12-54), with the provider
list reduced to its names and the `plans` dict to a lookup function
(defined for every listed provider, as `plans[provider.name]` requires). -/
def build_portfolio_report (providers : List String) (pitches : List Pitch)
    (decisions : List Decision) (plans : String → Plan) : List PortfolioRow :=
  let rows := providers.map (baseRow plans pitches decisions)
  assignRanksFrom 0 (List.insertionSort rowLe rows)

/-! ## JSON extraction (`extract_json`, providers/base.py lines 53-119)

The function is translated over `List Char`.  Whitespace and the fence
regex follow CPython's semantics for the ASCII texts involved (the
`re.search` of the fence pattern reduces, as derived below, to: take the
first occurrence of three backticks that has another occurrence at
distance at least 3, skip a literal `json`, cut at the next occurrence,
and strip the piece). -/

/-- Python `str.strip`'s ASCII whitespace. -/
def pyIsSpace (c : Char) : Bool :=
  c = ' ' || c = '\t' || c = '\n' || c = '\x0d' || c = Char.ofNat 11 || c = Char.ofNat 12

/-- `not text or not text.strip()` (base.py line 62). -/
def pyBlank (cs : List Char) : Bool :=
  cs.isEmpty || cs.all pyIsSpace

/-- `str.strip()`. -/
def pyStrip (cs : List Char) : List Char :=
  (cs.dropWhile pyIsSpace).reverse.dropWhile pyIsSpace |>.reverse

def backtick : Char := Char.ofNat 96

/-- Is `` ``` `` at position `i`? -/
def tripleAt (cs : List Char) (i : Nat) : Bool :=
  (cs.drop i).take 3 == [backtick, backtick, backtick]

/-- Indices of all fence-marker occurrences. -/
def tripleIdxs (cs : List Char) : List Nat :=
  (List.range cs.length).filter (tripleAt cs)

/-- `re.search(r"```(?:json)?\s*\n?(.*?)\n?\s*```", text, re.DOTALL)`
followed by `group(1).strip()` (base.py lines 66-68): the match starts at
the first marker occurrence, consumes a literal `json` if present, and
the lazy group ends at the next marker occurrence, modulo surrounding
whitespace which `strip()` removes anyway.  `none` when the pattern does
not match. -/
def pyFenceGroup (cs : List Char) : Option (List Char) :=
  match tripleIdxs cs with
  | [] => none
  | p :: rest =>
    let contentStart :=
      if (cs.drop (p + 3)).take 4 == ['j', 's', 'o', 'n'] then p + 3 + 4 else p + 3
    match rest.filter (fun q => p + 3 ≤ q) with
    | [] => none
    | q :: _ => some (pyStrip ((cs.drop contentStart).take (q - contentStart)))

/-- base.py lines 65-68: replace the text by the stripped fence content
when the fence pattern matches. -/
def pyFenceStrip (cs : List Char) : List Char :=
  match pyFenceGroup cs with
  | some inner => inner
  | none => cs

/-- `text.find(c)`. -/
def pyFindChar (c : Char) : List Char → Option Nat
  | [] => none
  | x :: rest => if x = c then some 0 else (pyFindChar c rest).map (· + 1)

/-- `text.rfind(c)` (as an option). -/
def pyRFindChar (c : Char) (cs : List Char) : Option Nat :=
  (pyFindChar c cs.reverse).map (fun i => cs.length - 1 - i)

/-- base.py lines 72-87: pick the start index and bracket pair,
preferring `\x7b` when `obj_start <= arr_start`. -/
def chooseBracket (cs : List Char) : Option (Nat × Char × Char) :=
  match pyFindChar '{' cs, pyFindChar '[' cs with
  | none, none => none
  | none, some a => some (a, '[', ']')
  | some o, none => some (o, '{', '}')
  | some o, some a =>
    if o ≤ a then some (o, '{', '}') else some (a, '[', ']')

/-- The scanner state of base.py lines 90-92: nesting depth, whether the
position is inside a double-quoted string, and whether the previous
character was a string-internal backslash. -/
structure ScanState where
  depth : Nat
  inStr : Bool
  esc : Bool
deriving DecidableEq, Repr

def initScan : ScanState := ⟨0, false, false⟩

/-- One iteration of the `for i in range(start, len(text))` loop
(base.py lines 93-112), minus the early return. -/
def scanStep (oc cc : Char) (st : ScanState) (c : Char) : ScanState :=
  if st.esc then { st with esc := false }
  else if c = '\\' then { st with esc := st.inStr }
  else if c = '"' then { st with inStr := !st.inStr, esc := false }
  else if st.inStr then st
  else if c = oc then { st with depth := st.depth + 1 }
  else if c = cc then { st with depth := st.depth - 1 }
  else st

/-- The early return of line 112 fires at a character `c` when the state
before processing `c` satisfies this. -/
def scanHit (oc cc : Char) (st : ScanState) (c : Char) : Bool :=
  !st.esc && !st.inStr && c = cc && st.depth = 1

/-- base.py lines 90-112: scan for the balancing close bracket, returning
its offset from the scan start. -/
def findCloseAux (oc cc : Char) : List Char → ScanState → Nat → Option Nat
  | [], _, _ => none
  | c :: rest, st, i =>
    if scanHit oc cc st c then some i
    else findCloseAux oc cc rest (scanStep oc cc st c) (i + 1)

/-- `extract_json` (base.py lines 53-119) over `List Char`. -/
def extractJsonChars (cs : List Char) : List Char :=
  if pyBlank cs then cs
  else
    let t := pyFenceStrip cs
    match chooseBracket t with
    | none => t
    | some (start, oc, cc) =>
      match findCloseAux oc cc (t.drop start) initScan 0 with
      | some e => (t.drop start).take (e + 1)
      | none =>
        match pyRFindChar cc t with
        | some lastClose =>
          if start < lastClose then (t.drop start).take (lastClose + 1 - start) else t
        | none => t

/-- `extract_json` on `String`s. -/
def extract_json (s : String) : String :=
  String.mk (extractJsonChars s.toList)

/-- The scan, started in state `st`, fires its early return at offset `e`
of `body`: the character there is the close bracket and the accumulated
string-aware state is at depth 1, outside any string, not escaped. -/
def hitFromB (oc cc : Char) (st : ScanState) (body : List Char) (e : Nat) : Bool :=
  match body.get? e with
  | some c => scanHit oc cc ((body.take e).foldl (scanStep oc cc) st) c
  | none => false

/-- Written from the claim: position `e` (an offset from the scan start)
is where the balancing close bracket sits — the character there is the
close bracket, and the string-aware depth count accumulated over the
preceding characters (a fold of `scanStep`, which ignores brackets
inside double-quoted strings and honours backslash escapes) is at depth
1, outside any string, and not escaped. -/
def closesAtB (oc cc : Char) (body : List Char) (e : Nat) : Bool :=
  hitFromB oc cc initScan body e

/-! ## Proofs -/

lemma retryGo_all_fail {α : Type} (outcome : Nat → AttemptOutcome α) (context : String)
    (max_retries : Nat) (err : Nat → String) :
    ∀ (attempts : List Nat) (last : Option String) (used : Nat),
      (∀ a ∈ attempts, outcome a = AttemptOutcome.failure (err a)) →
      retryGo outcome context max_retries attempts last used =
        (Except.error (context ++ " failed after " ++ toString max_retries ++
          " attempts: " ++ pyOptStr (match attempts.getLast? with
            | none => last
            | some a => some (err a))), used + attempts.length) := by
  intro attempts
  induction attempts with
  | nil =>
      intro last used _
      simp [retryGo]
  | cons a rest ih =>
      intro last used hfail
      have ha := hfail a (List.mem_cons_self a rest)
      have hrest : ∀ b ∈ rest, outcome b = AttemptOutcome.failure (err b) :=
        fun b hb => hfail b (List.mem_cons_of_mem a hb)
      simp only [retryGo, ha]
      rw [ih (some (err a)) (used + 1) hrest]
      cases rest with
      | nil => simp [List.getLast?]
      | cons b t =>
          rw [List.getLast?_cons_cons]
          rw [List.getLast?_eq_getLast (b :: t) (by simp)]
          simp [List.length_cons]
          omega

lemma retryGo_skip_failures {α : Type} (outcome : Nat → AttemptOutcome α) (context : String)
    (max_retries : Nat) :
    ∀ (pre rest : List Nat) (last : Option String) (used : Nat),
      (∀ a ∈ pre, ∃ e, outcome a = AttemptOutcome.failure e) →
      ∃ last2, retryGo outcome context max_retries (pre ++ rest) last used =
        retryGo outcome context max_retries rest last2 (used + pre.length) := by
  intro pre
  induction pre with
  | nil => intro rest last used _; exact ⟨last, rfl⟩
  | cons a p ih =>
      intro rest last used hfail
      obtain ⟨e, he⟩ := hfail a (List.mem_cons_self a p)
      obtain ⟨last2, hl⟩ := ih rest (some e) (used + 1)
        (fun b hb => hfail b (List.mem_cons_of_mem a hb))
      refine ⟨last2, ?_⟩
      have harith : used + 1 + p.length = used + (a :: p).length := by
        simp [List.length_cons]
        omega
      simp only [List.cons_append, retryGo, he, List.append_eq]
      rw [hl, harith]

lemma retryGo_head_success {α : Type} (outcome : Nat → AttemptOutcome α) (context : String)
    (max_retries : Nat) (k : Nat) (v : α) (rest : List Nat) (last : Option String) (used : Nat)
    (h : outcome k = AttemptOutcome.success v) :
    retryGo outcome context max_retries (k :: rest) last used = (Except.ok v, used + 1) := by
  rw [retryGo, h]


/-- C5: For every call to the Retry-Validate wrapper with `max_attempts ≥ 1`:
if some attempt `k ≤ max_attempts` parses and validates successfully (all
earlier attempts having failed), the parsed value of attempt `k` is
returned and exactly `k` provider calls are made; if every attempt fails,
exactly `max_attempts` attempts are made and a terminal failure is raised
whose message carries the call's label and the last attempt's underlying
error. -/
theorem retry_json_call_spec {α : Type} (outcome : Nat → AttemptOutcome α)
    (context : String) (max_retries : Nat) (hmax : 1 ≤ max_retries) :
    (∀ k v, 1 ≤ k → k ≤ max_retries → outcome k = AttemptOutcome.success v →
      (∀ j, 1 ≤ j → j < k → ∃ e, outcome j = AttemptOutcome.failure e) →
      retry_json_call outcome context max_retries = Except.ok v ∧
      (retryRun outcome context max_retries).2 = k) ∧
    (∀ err : Nat → String,
      (∀ j, 1 ≤ j → j ≤ max_retries → outcome j = AttemptOutcome.failure (err j)) →
      (retryRun outcome context max_retries).2 = max_retries ∧
      retry_json_call outcome context max_retries =
        Except.error (context ++ " failed after " ++ toString max_retries ++
          " attempts: " ++ err max_retries)) := by
  constructor
  · intro k v hk1 hk2 hsucc hfail
    have hsplit : List.range' 1 max_retries =
        List.range' 1 (k - 1) ++ k :: List.range' (k + 1) (max_retries - k) := by
      have h1 := List.range'_append 1 (k - 1) (max_retries - (k - 1)) 1
      simp only [one_mul, Nat.mul_one] at h1
      rw [show 1 + (k - 1) = k by omega,
        show max_retries - (k - 1) + (k - 1) = max_retries by omega] at h1
      have h2 : List.range' k (max_retries - (k - 1)) =
          k :: List.range' (k + 1) (max_retries - k) := by
        rw [show max_retries - (k - 1) = (max_retries - k) + 1 by omega]
        rw [List.range'_succ]
      rw [← h1, h2]
    obtain ⟨last2, hskip⟩ := retryGo_skip_failures outcome context max_retries
      (List.range' 1 (k - 1)) (k :: List.range' (k + 1) (max_retries - k)) none 0
      (by
        intro a ha
        rw [List.mem_range'] at ha
        exact hfail a (by omega) (by omega))
    have hrun : retryRun outcome context max_retries =
        (Except.ok v, 0 + (List.range' 1 (k - 1)).length + 1) := by
      simp only [retryRun]
      rw [hsplit, hskip, retryGo_head_success outcome context max_retries k v _ _ _ hsucc]
    constructor
    · simp only [retry_json_call]
      rw [hrun]
    · rw [hrun]
      simp [List.length_range']
      omega
  · intro err hfail
    have hall := retryGo_all_fail outcome context max_retries err (List.range' 1 max_retries)
      none 0 (by
        intro a ha
        rw [List.mem_range'] at ha
        exact hfail a (by omega) (by omega))
    have hlast : (List.range' 1 max_retries).getLast? = some max_retries := by
      have h1 := List.range'_append 1 (max_retries - 1) 1 1
      simp only [one_mul, Nat.mul_one] at h1
      rw [show 1 + (max_retries - 1) = max_retries by omega] at h1
      rw [← h1, show List.range' max_retries 1 = [max_retries] from rfl]
      simp
    rw [hlast] at hall
    constructor
    · simp only [retryRun]
      rw [hall]
      simp [List.length_range']
    · simp only [retry_json_call, retryRun]
      rw [hall]
      rfl

/-- C5 witness: all three attempts fail; the wrapper makes exactly 3
attempts and raises the labelled terminal failure carrying the last
attempt's error. -/
theorem retry_json_call_spec_witness :
    (retryRun (fun k => AttemptOutcome.failure (α := Nat) ("boom" ++ toString k))
      "selection (openai)" 3).2 = 3 ∧
    retry_json_call (fun k => AttemptOutcome.failure (α := Nat) ("boom" ++ toString k))
      "selection (openai)" 3 =
      Except.error ("selection (openai)" ++ " failed after " ++ toString 3 ++
        " attempts: " ++ ("boom" ++ toString 3)) :=
  (retry_json_call_spec (fun k => AttemptOutcome.failure ("boom" ++ toString k))
    "selection (openai)" 3 (by decide)).2
    (fun k => "boom" ++ toString k) (fun j _ _ => rfl)

/-- C9: The preflight validator probes every actor once (`map probe`); a
mock actor's probe passes while ignoring what a generation call would do
(the call is bypassed); failures are collected, not fail-fast; if at
least one probe fails, the single aggregate error lists exactly the
failing actors with their details truncated to 300 characters (the
message is a function of the failing probes only, so no passing actor is
mentioned); if every probe passes, preflight returns without raising. -/
theorem run_preflight_spec (providers : List Provider) :
    (run_preflight providers = Except.ok () ↔
      ∀ p ∈ providers, (probe p).ok = true) ∧
    (∀ p : Provider, ∀ g : Except String String, p.isMock = true →
      probe { p with probeGen := g } = probe p) ∧
    (∀ p : Provider, p.isMock = true → (probe p).ok = true) ∧
    (∀ p : Provider, ∀ e : String, p.isMock = false → p.probeGen = Except.error e →
      (probe p).ok = false ∧ (probe p).detail = pyTruncate e 300) ∧
    ((providers.map probe).filter (fun r => !r.ok) ≠ [] →
      run_preflight providers = Except.error ("Pre-flight failed:\n" ++
        String.intercalate "\n"
          (((providers.map probe).filter (fun r => !r.ok)).map
            (fun r => "  - " ++ r.name ++ ": " ++ r.detail)))) := by
  refine ⟨?_, ?_, ?_, ?_, ?_⟩
  · rw [run_preflight]
    simp only [List.isEmpty_iff]
    constructor
    · intro h p hp
      by_cases hfilter : (providers.map probe).filter (fun r => !r.ok) = []
      · have : probe p ∈ providers.map probe := List.mem_map_of_mem probe hp
        have := (List.filter_eq_nil.mp hfilter) (probe p) this
        simpa using this
      · simp only [if_neg hfilter] at h
        exact absurd h (by simp)
    · intro h
      have hfilter : (providers.map probe).filter (fun r => !r.ok) = [] := by
        rw [List.filter_eq_nil]
        intro r hr
        obtain ⟨p, hp, rfl⟩ := List.mem_map.mp hr
        simpa using h p hp
      simp [hfilter]
  · intro p g hmock
    simp [probe, hmock]
  · intro p hmock
    simp [probe, hmock]
  · intro p e hmock herr
    simp [probe, hmock, herr]
  · intro hne
    rw [run_preflight]
    simp only [List.isEmpty_iff, if_neg hne]

/-- C9 witness: one mock, one passing, one failing probe — the aggregate
error names only the failing actor. -/
theorem run_preflight_spec_witness :
    run_preflight
      [⟨"openai", "gpt", false, Except.ok "ok"⟩,
       ⟨"anthropic", "claude", true, Except.error "never called"⟩,
       ⟨"deepseek", "r1", false, Except.error "HTTP 401"⟩] =
      Except.error ("Pre-flight failed:\n" ++
        String.intercalate "\n" ["  - " ++ "deepseek" ++ ": " ++ "HTTP 401"]) := by
  have h := (run_preflight_spec
    [⟨"openai", "gpt", false, Except.ok "ok"⟩,
     ⟨"anthropic", "claude", true, Except.error "never called"⟩,
     ⟨"deepseek", "r1", false, Except.error "HTTP 401"⟩]).2.2.2.2 (by decide)
  rw [h]
  rfl

/-- The checkpoint present on disk before a partial-resume invocation of
`run_stage2`: Stage 1 done, founders `openai` and `anthropic` already
recorded as done in Stage 2. -/
def c2PriorCheckpoint : Checkpoint := fun k =>
  if k = "stage1_complete" then some (CVal.vBool true)
  else if k = "stage2_founders_done" then some (CVal.vList ["openai", "anthropic"]) else none

/-- C2 (failing-input evaluation): resuming with `stage2_founders_done =
["openai", "anthropic"]` and running `run_stage2` for the remaining
founders `deepseek` and `gemini`, the per-founder checkpoint writes leave
`stage2_founders_done = ["deepseek", "gemini"]`: the previously-done
founders are dropped, not merged, contradicting the claim (and the
code's own stated purpose of surviving repeated partial crashes). -/
theorem stage2FounderWrite_drops_previous :
    stage2CheckpointRun c2PriorCheckpoint [] ["deepseek", "gemini"] "stage2_founders_done" =
      some (CVal.vList ["deepseek", "gemini"]) ∧
    c2PriorCheckpoint "stage2_founders_done" = some (CVal.vList ["openai", "anthropic"]) ∧
    "openai" ∉ ["deepseek", "gemini"] := by
  refine ⟨rfl, rfl, by decide⟩

/-- A checkpoint holding a field unrelated to `stage1_complete`. -/
def c3PriorCheckpoint : Checkpoint := fun k =>
  if k = "stage2_founders_done" then some (CVal.vList ["openai"]) else none

/-- C3 counterexample: the Stage-1 completion write
(`_save_checkpoint(run_dir, {"stage1_complete": True})`) does not merge:
applied to a checkpoint whose `stage2_founders_done` is `["openai"]`, the
field is gone after the write, so not every field other than the one
being set keeps its value. -/
theorem stage1CompleteWrite_not_merge :
    stage1CompleteWrite c3PriorCheckpoint "stage2_founders_done" = none ∧
    c3PriorCheckpoint "stage2_founders_done" = some (CVal.vList ["openai"]) ∧
    stage1CompleteWrite c3PriorCheckpoint "stage2_founders_done" ≠
      c3PriorCheckpoint "stage2_founders_done" :=
  ⟨rfl, rfl, by decide⟩

/-- C3 amended: the Stage-2 and Stage-3 completion writes merge into the
previously loaded checkpoint — every field other than the stage-completion
flags they set keeps its value — while the Stage-1 completion write
replaces the checkpoint wholesale (its result does not depend on the
previous checkpoint and holds only `stage1_complete`). -/
theorem stageCompleteWrites_frame (cp : Checkpoint) (k : String) :
    (k ≠ "stage1_complete" → k ≠ "stage2_complete" → stage2CompleteWrite cp k = cp k) ∧
    (k ≠ "stage1_complete" → k ≠ "stage2_complete" → k ≠ "stage3_complete" →
      stage3CompleteWrite cp k = cp k) ∧
    (∀ cp' : Checkpoint, stage1CompleteWrite cp k = stage1CompleteWrite cp' k) ∧
    (stage1CompleteWrite cp k =
      if k = "stage1_complete" then some (CVal.vBool true) else none) := by
  refine ⟨?_, ?_, ?_, ?_⟩
  · intro h1 h2
    simp [stage2CompleteWrite, h1, h2]
  · intro h1 h2 h3
    simp [stage3CompleteWrite, h1, h2, h3]
  · intro cp'
    rfl
  · rfl

/-- C3 amended witness: on a checkpoint carrying `stage2_founders_done`,
the Stage-2 completion write preserves that field. -/
theorem stageCompleteWrites_frame_witness :
    stage2CompleteWrite c3PriorCheckpoint "stage2_founders_done" =
      c3PriorCheckpoint "stage2_founders_done" :=
  (stageCompleteWrites_frame c3PriorCheckpoint "stage2_founders_done").1
    (by decide) (by decide)

lemma stage2LoopAux_spec (reviews : Nat → List Review) (maxIter : Nat) :
    ∀ (fuel r : Nat), 1 ≤ r → r ≤ maxIter → maxIter < r + fuel →
      r ≤ (stage2LoopAux reviews maxIter r fuel).1 ∧
      (stage2LoopAux reviews maxIter r fuel).1 ≤ maxIter ∧
      ((stage2LoopAux reviews maxIter r fuel).2 = true ↔
        convergedAt reviews (stage2LoopAux reviews maxIter r fuel).1 = true) ∧
      (∀ x, r ≤ x → x < (stage2LoopAux reviews maxIter r fuel).1 →
        convergedAt reviews x = false) ∧
      ((stage2LoopAux reviews maxIter r fuel).2 = false →
        (stage2LoopAux reviews maxIter r fuel).1 = maxIter) := by
  intro fuel
  induction fuel with
  | zero => intro r h1 h2 h3; omega
  | succ fuel ih =>
      intro r h1 h2 h3
      by_cases hc : convergedAt reviews r = true
      · have hstep : stage2LoopAux reviews maxIter r (fuel + 1) = (r, true) := by
          simp [stage2LoopAux, hc]
        rw [hstep]
        exact ⟨le_refl r, h2, by simp [hc], fun x hx1 hx2 => absurd hx2 (by omega), by simp⟩
      · by_cases hr : r = maxIter
        · subst hr
          have hstep : stage2LoopAux reviews r r (fuel + 1) = (r, false) := by
            simp [stage2LoopAux, hc]
          rw [hstep]
          refine ⟨le_refl r, le_refl r, ?_,
            fun x hx1 hx2 => absurd hx2 (by omega), fun _ => rfl⟩
          simp [hc]
        · have hrec := ih (r + 1) (by omega) (by omega) (by omega)
          have hstep : stage2LoopAux reviews maxIter r (fuel + 1) =
              stage2LoopAux reviews maxIter (r + 1) fuel := by
            simp [stage2LoopAux, hc, hr]
          rw [hstep]
          refine ⟨le_trans (Nat.le_succ r) hrec.1, hrec.2.1, hrec.2.2.1, ?_, hrec.2.2.2.2⟩
          intro x hx1 hx2
          rcases Nat.eq_or_lt_of_le hx1 with heq | hlt
          · rw [← heq]
            exact Bool.eq_false_iff.mpr hc
          · exact hrec.2.2.2.1 x hlt hx2

/-- C1: In the Stage-2 round loop (1-based rounds, at most `max_rounds`),
the loop exits through the convergence test exactly when, at the exit
round `r`, `r ≥ MIN_ROUNDS_BEFORE_CONVERGENCE` (= 2) and all advisors
signal ready and the mean readiness score is ≥ 7.5 — and no earlier round
satisfied that test; convergence can never fire at round 1; and when the
test never fires the loop still stops, at round `max_rounds`. -/
theorem stage2Exit_spec (reviews : Nat → List Review) (maxIter : Nat) (h : 1 ≤ maxIter) :
    1 ≤ (stage2Exit reviews maxIter).1 ∧
    (stage2Exit reviews maxIter).1 ≤ maxIter ∧
    ((stage2Exit reviews maxIter).2 = true ↔
      (MIN_ROUNDS_BEFORE_CONVERGENCE ≤ (stage2Exit reviews maxIter).1 ∧
       roundAllReady (reviews (stage2Exit reviews maxIter).1) = true ∧
       (15 : ℚ) / 2 ≤ roundAvgScore (reviews (stage2Exit reviews maxIter).1))) ∧
    (∀ x, 1 ≤ x → x < (stage2Exit reviews maxIter).1 →
      ¬(MIN_ROUNDS_BEFORE_CONVERGENCE ≤ x ∧ roundAllReady (reviews x) = true ∧
        (15 : ℚ) / 2 ≤ roundAvgScore (reviews x))) ∧
    ((stage2Exit reviews maxIter).2 = true → 2 ≤ (stage2Exit reviews maxIter).1) ∧
    ((stage2Exit reviews maxIter).2 = false → (stage2Exit reviews maxIter).1 = maxIter) := by
  have hconv : ∀ x, convergedAt reviews x = true ↔
      (MIN_ROUNDS_BEFORE_CONVERGENCE ≤ x ∧ roundAllReady (reviews x) = true ∧
        (15 : ℚ) / 2 ≤ roundAvgScore (reviews x)) := by
    intro x
    simp [convergedAt, Bool.and_eq_true, decide_eq_true_eq, and_assoc]
  have hs := stage2LoopAux_spec reviews maxIter maxIter 1 (by omega) h (by omega)
  rw [show stage2LoopAux reviews maxIter 1 maxIter = stage2Exit reviews maxIter from rfl] at hs
  refine ⟨hs.1, hs.2.1, ?_, ?_, ?_, hs.2.2.2.2⟩
  · rw [hs.2.2.1, hconv]
  · intro x hx1 hx2 hcontra
    have := hs.2.2.2.1 x hx1 hx2
    rw [← hconv x] at hcontra
    simp [hcontra] at this
  · intro htrue
    have := hs.2.2.1.mp htrue
    rw [hconv] at this
    have h2 := this.1
    simpa [MIN_ROUNDS_BEFORE_CONVERGENCE] using h2

/-- C1 witness: with every round's reviews all-ready at mean 8.5 and
`max_rounds = 3`, the convergence floor still forces the exit round to be
at least 2 (the theorem's minimality conjunct rules out round 1). -/
theorem stage2Exit_spec_witness :
    1 ≤ (stage2Exit (fun _ => [⟨true, 8⟩, ⟨true, 9⟩]) 3).1 ∧
    ((stage2Exit (fun _ => [⟨true, 8⟩, ⟨true, 9⟩]) 3).2 = true →
      2 ≤ (stage2Exit (fun _ => [⟨true, 8⟩, ⟨true, 9⟩]) 3).1) :=
  ⟨(stage2Exit_spec (fun _ => [⟨true, 8⟩, ⟨true, 9⟩]) 3 (by decide)).1,
   (stage2Exit_spec (fun _ => [⟨true, 8⟩, ⟨true, 9⟩]) 3 (by decide)).2.2.2.2.1⟩

lemma lookup_completionStore {α β : Type} (f : α → β) (items : List α) :
    ∀ (schedule : List Nat) (i : Nat),
      (∀ j ∈ schedule, j < items.length) → i ∈ schedule →
      storeLookup i (completionStore f items schedule) = (items.get? i).map f := by
  intro schedule
  induction schedule with
  | nil => intro i _ hi; exact absurd hi (List.not_mem_nil i)
  | cons j rest ih =>
      intro i hbound hi
      have hj : j < items.length := hbound j (List.mem_cons_self j rest)
      have hget : items[j]? = some items[j] := List.getElem?_eq_getElem hj
      by_cases hij : i = j
      · subst hij
        simp [completionStore, List.filterMap_cons, hget, storeLookup]
      · have hi' : i ∈ rest := by
          rcases List.mem_cons.mp hi with h | h
          · exact absurd h hij
          · exact h
        have hrec := ih i (fun x hx => hbound x (List.mem_cons_of_mem j hx)) hi'
        simp only [completionStore] at hrec ⊢
        simp only [List.filterMap_cons, List.get?_eq_getElem?]
        rw [hget]
        simp only [Option.map_some']
        simp only [storeLookup]
        rw [if_neg hij]
        simp only [List.get?_eq_getElem?] at hrec
        exact hrec

lemma filterMap_get?_range {α β : Type} (f : α → β) (items : List α) :
    (List.range items.length).filterMap (fun i => (items.get? i).map f) =
      items.map f := by
  induction items with
  | nil => rfl
  | cons a t ih =>
      rw [List.length_cons, List.range_succ_eq_map, List.filterMap_cons,
        List.filterMap_map]
      have hcomp : ((fun i => ((a :: t).get? i).map f) ∘ fun x => x + 1) =
          (fun i => (t.get? i).map f) := by
        funext i
        simp
      rw [hcomp, ih]
      simp

lemma filterMap_congr_mem {α β : Type} :
    ∀ (l : List α) (f g : α → Option β), (∀ a ∈ l, f a = g a) →
      l.filterMap f = l.filterMap g := by
  intro l
  induction l with
  | nil => intro f g _; rfl
  | cons a t ih =>
      intro f g h
      rw [List.filterMap_cons, List.filterMap_cons, h a (List.mem_cons_self a t),
        ih f g (fun x hx => h x (List.mem_cons_of_mem a hx))]

/-- C10: For every function, item list and concurrency value (including
`concurrency > 1`), the concurrent task runner yields exactly one result
per input item in input order: whatever order the worker pool completes
the tasks in (any permutation of the task indices), the returned sequence
equals the sequential map of the function over the items. -/
theorem map_concurrently_eq_map {α β : Type} (f : α → β) (items : List α)
    (concurrency : Nat) (schedule : List Nat)
    (hperm : schedule.Perm (List.range items.length)) :
    map_concurrently f items concurrency schedule = items.map f := by
  by_cases hc : concurrency ≤ 1
  · simp [map_concurrently, hc]
  · have hbound : ∀ j ∈ schedule, j < items.length := by
      intro j hj
      have := hperm.mem_iff.mp hj
      simpa using this
    have hcover : ∀ i ∈ List.range items.length, i ∈ schedule := by
      intro i hi
      exact hperm.mem_iff.mpr hi
    simp only [map_concurrently, if_neg hc]
    rw [filterMap_congr_mem (List.range items.length)
      (fun i => storeLookup i (completionStore f items schedule))
      (fun i => (items.get? i).map f)
      (fun i hi => lookup_completionStore f items schedule i hbound (hcover i hi))]
    exact filterMap_get?_range f items

/-- C10 witness: three items completed by the pool in the order
`[2, 0, 1]` under concurrency 4 still gather to the in-order map. -/
theorem map_concurrently_eq_map_witness :
    map_concurrently String.length ["aa", "b", "ccc"] 4 [2, 0, 1] =
      ["aa", "b", "ccc"].map String.length :=
  map_concurrently_eq_map String.length ["aa", "b", "ccc"] 4 [2, 0, 1] (by decide)

lemma filter_self_advisors (advisors : List String) (pn : String)
    (hnd : advisors.Nodup) (hmem : pn ∈ advisors) :
    (advisors.filter (fun r => !(r == pn))).length = advisors.length - 1 := by
  have h1 : advisors.filter (fun r => !(r == pn)) =
      advisors.filter (fun r => r != pn) := by
    apply List.filter_congr
    intro x _
    rfl
  rw [h1, ← List.Nodup.erase_eq_filter hnd pn, List.length_erase_of_mem hmem]

lemma flatMap_const_length {γ δ : Type} (l : List γ) (g : γ → List δ) (c : Nat)
    (h : ∀ x ∈ l, (g x).length = c) : (l.flatMap g).length = l.length * c := by
  induction l with
  | nil => simp
  | cons x t ih =>
      rw [List.flatMap_cons, List.length_append, h x (List.mem_cons_self x t),
        ih (fun y hy => h y (List.mem_cons_of_mem x hy)), List.length_cons,
        Nat.succ_mul, Nat.add_comm]

lemma crossReviewTasksSpec_length (advisors : List String) (hnd : advisors.Nodup) :
    ∀ (allIdeasItems : List (String × List Idea)),
      (∀ pr ∈ allIdeasItems, pr.1 ∈ advisors) →
      (crossReviewTasksSpec allIdeasItems advisors).length =
        (allIdeasItems.map (fun pr => pr.2.length)).sum * (advisors.length - 1) := by
  intro items
  induction items with
  | nil => intro _; simp [crossReviewTasksSpec]
  | cons pr t ih =>
      intro hadv
      rw [crossReviewTasksSpec, List.flatMap_cons, List.length_append]
      have hinner : (pr.2.flatMap (fun idea =>
          (advisors.filter (fun r => !(r == pr.1))).map (fun r => (pr.1, idea, r)))).length =
          pr.2.length * (advisors.length - 1) := by
        apply flatMap_const_length
        intro idea _
        rw [List.length_map]
        exact filter_self_advisors advisors pr.1 hnd (hadv pr (List.mem_cons_self pr t))
      have hrest := ih (fun x hx => hadv x (List.mem_cons_of_mem pr hx))
      rw [crossReviewTasksSpec] at hrest
      rw [hinner, hrest, List.map_cons, List.sum_cons, Nat.add_mul]

/-- C7: The cross-review task set of Stage 1 is exactly the set of
(idea, advisor) pairs over all generated ideas and all role-assigned
advisors minus the pairs where the advisor is the idea's founder (given
that every idea-dict key is a founder name — which `run_stage1`
guarantees, the keys being exactly the founders that generated); hence,
when advisor names are distinct and every founder is also an advisor,
the number of feedback tasks is (number of ideas) × (advisors − 1). -/
theorem crossReviewTasks_correct (allIdeasItems : List (String × List Idea))
    (advisors : List String) (founderNames : List String)
    (hkeys : ∀ pr ∈ allIdeasItems, pr.1 ∈ founderNames) :
    crossReviewTasks allIdeasItems advisors founderNames =
      crossReviewTasksSpec allIdeasItems advisors ∧
    (advisors.Nodup → (∀ pr ∈ allIdeasItems, pr.1 ∈ advisors) →
      (crossReviewTasks allIdeasItems advisors founderNames).length =
        (allIdeasItems.map (fun pr => pr.2.length)).sum * (advisors.length - 1)) := by
  have heq : crossReviewTasks allIdeasItems advisors founderNames =
      crossReviewTasksSpec allIdeasItems advisors := by
    unfold crossReviewTasks crossReviewTasksSpec
    induction allIdeasItems with
    | nil => rfl
    | cons pr t ih =>
        rw [List.flatMap_cons, List.flatMap_cons,
          ih (fun x hx => hkeys x (List.mem_cons_of_mem pr hx))]
        congr 1
        have hcontains : founderNames.contains pr.1 = true := by
          rw [List.contains_eq_any_beq]
          rw [List.any_eq_true]
          exact ⟨pr.1, hkeys pr (List.mem_cons_self pr t), by simp⟩
        apply List.flatMap_congr
        intro idea _
        congr 1
        apply List.filter_congr
        intro r _
        rw [hcontains]
        simp
  refine ⟨heq, ?_⟩
  intro hnd hadv
  rw [heq]
  exact crossReviewTasksSpec_length advisors hnd allIdeasItems hadv

/-- C7 witness: two founders (who are also the advisors), one idea each:
the tasks are the self-excluded cross product and count 2 × (2 − 1). -/
theorem crossReviewTasks_correct_witness :
    crossReviewTasks [("alpha", [⟨"i1", "p1"⟩]), ("beta", [⟨"i2", "p2"⟩])]
        ["alpha", "beta"] ["alpha", "beta"] =
      crossReviewTasksSpec [("alpha", [⟨"i1", "p1"⟩]), ("beta", [⟨"i2", "p2"⟩])]
        ["alpha", "beta"] ∧
    (crossReviewTasks [("alpha", [⟨"i1", "p1"⟩]), ("beta", [⟨"i2", "p2"⟩])]
        ["alpha", "beta"] ["alpha", "beta"]).length = 2 * (2 - 1) := by
  have h := crossReviewTasks_correct
    [("alpha", [⟨"i1", "p1"⟩]), ("beta", [⟨"i2", "p2"⟩])]
    ["alpha", "beta"] ["alpha", "beta"] (by decide)
  refine ⟨h.1, ?_⟩
  have h2 := h.2 (by decide) (by decide)
  simpa using h2

/-- C4 counterexample: a founder who produced exactly one idea while the
run was configured with `ideas_per_provider = 2` does *not* get a
synthesized Selection — the code branches on the configured
`ideas_per_provider`, not on the founder's actual idea count, so a
Retry-Validate selection call is issued. -/
theorem stage1Select_config_counterexample :
    (([⟨"i1", "p1"⟩] : List Idea).length = 1) ∧
    stage1Select 2 ["solo"] (fun _ => [⟨"i1", "p1"⟩]) [] =
      [("solo", some (SelectionOutcome.llmCall "solo"))] ∧
    (∀ s : Selection,
      SelectionOutcome.llmCall "solo" ≠ SelectionOutcome.auto s) :=
  ⟨rfl, rfl, fun _ h => SelectionOutcome.noConfusion h⟩

/-- C4 amended: the auto-select/LLM-select branch is taken on the
configured `ideas_per_provider`, not on a founder's actual idea count.
When `ideas_per_provider = 1`, every founder's Selection is synthesized
without an actor generation call from the founder's *first* generated
idea: `selected_idea_id` is that idea's id and the reasoning is the
deterministic template incorporating the mean feedback score of that
idea.  When `ideas_per_provider ≠ 1`, every founder's selection is made
via the Retry-Validate selection call. -/
theorem stage1Select_amended (ideasPerProvider : Nat) (founders : List String)
    (allIdeas : String → List Idea) (allFeedback : List Feedback) :
    (ideasPerProvider = 1 →
      ∀ f ∈ founders, ∀ (idea : Idea) (rest : List Idea), allIdeas f = idea :: rest →
        (f, some (SelectionOutcome.auto
          { selected_idea_id := idea.idea_id
            founder_provider := f
            reasoning := autoSelectReasoning idea.idea_id
              (autoAvgScore (feedbackFor allFeedback idea.idea_id))
            refined_idea := idea })) ∈
          stage1Select ideasPerProvider founders allIdeas allFeedback) ∧
    (ideasPerProvider ≠ 1 →
      ∀ f ∈ founders,
        (f, some (SelectionOutcome.llmCall f)) ∈
          stage1Select ideasPerProvider founders allIdeas allFeedback) := by
  constructor
  · intro h1 f hf idea rest hideas
    subst h1
    simp only [stage1Select, if_pos rfl]
    have hmem := List.mem_map_of_mem (fun f =>
      (f, match allIdeas f with
        | [] => none
        | idea :: _ =>
          let fbs := feedbackFor allFeedback idea.idea_id
          let avg := autoAvgScore fbs
          some (SelectionOutcome.auto
            { selected_idea_id := idea.idea_id
              founder_provider := f
              reasoning := autoSelectReasoning idea.idea_id avg
              refined_idea := idea }))) hf
    simp only [hideas] at hmem
    exact hmem
  · intro h1 f hf
    simp only [stage1Select, if_neg h1]
    exact List.mem_map_of_mem (fun f => (f, some (SelectionOutcome.llmCall f))) hf

/-- C4 amended witness: with `ideas_per_provider = 1` the single founder's
record is the synthesized auto-selection of its only idea. -/
theorem stage1Select_amended_witness :
    ("a", some (SelectionOutcome.auto
      { selected_idea_id := ("i1" : String)
        founder_provider := ("a" : String)
        reasoning := autoSelectReasoning "i1" (autoAvgScore (feedbackFor [] "i1"))
        refined_idea := (⟨"i1", "p1"⟩ : Idea) })) ∈
      stage1Select 1 ["a"] (fun _ => [⟨"i1", "p1"⟩]) [] :=
  (stage1Select_amended 1 ["a"] (fun _ => [⟨"i1", "p1"⟩]) []).1 rfl
    "a" (List.mem_cons_self "a" []) ⟨"i1", "p1"⟩ [] rfl

lemma assignRanksFrom_length (l : List PortfolioRow) :
    ∀ i, (assignRanksFrom i l).length = l.length := by
  induction l with
  | nil => intro i; rfl
  | cons r t ih => intro i; simp [assignRanksFrom, ih]

lemma assignRanksFrom_getElem? (l : List PortfolioRow) :
    ∀ (i k : Nat), (assignRanksFrom i l)[k]? =
      (l[k]?).map (fun r => { r with rank := i + k + 1 }) := by
  induction l with
  | nil => intro i k; simp [assignRanksFrom]
  | cons r t ih =>
      intro i k
      cases k with
      | zero => simp [assignRanksFrom]
      | succ k =>
          simp only [assignRanksFrom, List.getElem?_cons_succ]
          rw [ih (i + 1) k]
          have harith : ∀ x : PortfolioRow,
              ({ x with rank := i + 1 + k + 1 } : PortfolioRow) =
                { x with rank := i + (k + 1) + 1 } := by
            intro x
            congr 1
            omega
          cases t[k]? with
          | none => simp
          | some x => simp [harith x]

lemma rowLe_rank_irrel (a b : PortfolioRow) (x y : Nat) :
    rowLe { a with rank := x } { b with rank := y } ↔ rowLe a b :=
  Iff.rfl

/-- C6 amended: the portfolio report groups decisions by founder, counts
`invest` decisions, and sorts the rows descending by the pair
(invest count, mean conviction **rounded to one decimal** — the stored
`avg_conviction`); ranks are 1..N by sorted position; rows with equal
invest count and equal rounded conviction retain their relative input
order (stable sort); strictly greater *rounded* conviction at equal
invest count ranks strictly above.  (Strictly greater exact means that
agree after rounding tie instead — see the counterexample.) -/
theorem build_portfolio_report_spec (providers : List String) (pitches : List Pitch)
    (decisions : List Decision) (plans : String → Plan) :
    (∀ k (hk : k < (build_portfolio_report providers pitches decisions plans).length),
      ((build_portfolio_report providers pitches decisions plans).get ⟨k, hk⟩).rank = k + 1) ∧
    (∀ i j (hi : i < (build_portfolio_report providers pitches decisions plans).length)
        (hj : j < (build_portfolio_report providers pitches decisions plans).length),
      i < j →
      rowLe ((build_portfolio_report providers pitches decisions plans).get ⟨i, hi⟩)
        ((build_portfolio_report providers pitches decisions plans).get ⟨j, hj⟩)) ∧
    (∀ i j (hi : i < (build_portfolio_report providers pitches decisions plans).length)
        (hj : j < (build_portfolio_report providers pitches decisions plans).length),
      ((build_portfolio_report providers pitches decisions plans).get ⟨i, hi⟩).investors_in =
        ((build_portfolio_report providers pitches decisions plans).get ⟨j, hj⟩).investors_in →
      ((build_portfolio_report providers pitches decisions plans).get ⟨j, hj⟩).avg_conviction <
        ((build_portfolio_report providers pitches decisions plans).get ⟨i, hi⟩).avg_conviction →
      ((build_portfolio_report providers pitches decisions plans).get ⟨i, hi⟩).rank <
        ((build_portfolio_report providers pitches decisions plans).get ⟨j, hj⟩).rank) ∧
    (∀ a b : PortfolioRow,
      [a, b].Sublist (providers.map (baseRow plans pitches decisions)) →
      a.investors_in = b.investors_in → a.avg_conviction = b.avg_conviction →
      [a, b].Sublist
        (List.insertionSort rowLe (providers.map (baseRow plans pitches decisions)))) := by
  have hsorted : List.Sorted rowLe
      (List.insertionSort rowLe (providers.map (baseRow plans pitches decisions))) :=
    List.sorted_insertionSort rowLe (providers.map (baseRow plans pitches decisions))
  have hlen : ∀ k, k < (build_portfolio_report providers pitches decisions plans).length →
      k < (List.insertionSort rowLe (providers.map (baseRow plans pitches decisions))).length := by
    intro k hk
    rw [build_portfolio_report] at hk
    rw [← assignRanksFrom_length _ 0]
    exact hk
  have hget : ∀ k (hk : k < (build_portfolio_report providers pitches decisions plans).length),
      (build_portfolio_report providers pitches decisions plans).get ⟨k, hk⟩ =
        { (List.insertionSort rowLe (providers.map (baseRow plans pitches decisions))).get
            ⟨k, hlen k hk⟩ with rank := k + 1 } := by
    intro k hk
    have hk' := hlen k hk
    have hk'' : k < (assignRanksFrom 0
        (List.insertionSort rowLe (providers.map (baseRow plans pitches decisions)))).length := by
      rw [assignRanksFrom_length]
      exact hk'
    have h3 := assignRanksFrom_getElem?
      (List.insertionSort rowLe (providers.map (baseRow plans pitches decisions))) 0 k
    rw [List.getElem?_eq_getElem hk'', List.getElem?_eq_getElem hk'] at h3
    simp only [Option.map_some'] at h3
    have h4 := Option.some.inj h3
    rw [List.get_eq_getElem, List.get_eq_getElem]
    show (assignRanksFrom 0
      (List.insertionSort rowLe (providers.map (baseRow plans pitches decisions))))[k] = _
    rw [h4]
    congr 1
    omega
  refine ⟨?_, ?_, ?_, ?_⟩
  · intro k hk
    rw [hget k hk]
  · intro i j hi hj hij
    rw [hget i hi, hget j hj, rowLe_rank_irrel]
    exact hsorted.rel_get_of_lt (by simpa using hij)
  · intro i j hi hj hinv havg
    rcases Nat.lt_trichotomy i j with h | h | h
    · rw [hget i hi, hget j hj]
      simp only []
      omega
    · subst h
      exact absurd havg (lt_irrefl _)
    · have := hsorted.rel_get_of_lt
        (a := ⟨j, hlen j hj⟩) (b := ⟨i, hlen i hi⟩) (by simpa using h)
      rw [hget i hi, hget j hj] at hinv havg
      simp only [] at hinv havg
      rcases this with hc | ⟨_, hc⟩
      · omega
      · exact absurd havg (not_lt.mpr hc)
  · intro a b hsub hinv havg
    exact List.pair_sublist_insertionSort
      (Or.inr ⟨hinv, le_of_eq havg.symm⟩) hsub

/-- C6 amended witness: a one-founder report assigns rank 1 to its only
row. -/
theorem build_portfolio_report_spec_witness :
    ((build_portfolio_report ["a"] [] [] (fun _ => ⟨"a", "ia", ""⟩)).get
      ⟨0, by simp [build_portfolio_report, assignRanksFrom_length]⟩).rank = 0 + 1 :=
  (build_portfolio_report_spec ["a"] [] [] (fun _ => ⟨"a", "ia", ""⟩)).1 0
    (by simp [build_portfolio_report, assignRanksFrom_length])

/-- Two founders with plans `ia` (alice) and `ib` (bob). -/
def c6Plans : String → Plan := fun n =>
  if n = "alice" then ⟨"alice", "ia", ""⟩ else ⟨"bob", "ib", ""⟩

/-- Alice's idea gets 3 invests with scores 7, 7, 6 (exact mean 20/3);
Bob's gets 3 invests among 10 decisions with score sum 67 (exact mean
67/10 > 20/3).  Both means round to 6.7 at one decimal. -/
def c6Decisions : List Decision :=
  [⟨"ia", "invest", 7⟩, ⟨"ia", "invest", 7⟩, ⟨"ia", "invest", 6⟩,
   ⟨"ib", "invest", 7⟩, ⟨"ib", "invest", 7⟩, ⟨"ib", "invest", 7⟩,
   ⟨"ib", "pass", 7⟩, ⟨"ib", "pass", 7⟩, ⟨"ib", "pass", 7⟩, ⟨"ib", "pass", 7⟩,
   ⟨"ib", "pass", 6⟩, ⟨"ib", "pass", 6⟩, ⟨"ib", "pass", 6⟩]

/-- C6 counterexample: bob's exact mean conviction (67/10) is strictly
greater than alice's (20/3) at equal invest counts (3 each), yet bob
ranks 2, strictly below alice's 1 — the sort key uses the conviction
rounded to one decimal (both 6.7), so the stable sort keeps input order.
This refutes "a founder with strictly greater mean conviction at equal
invest_count ranks strictly above". -/
theorem build_portfolio_report_rounding_counterexample :
    meanConviction c6Decisions "ia" < meanConviction c6Decisions "ib" ∧
    (build_portfolio_report ["alice", "bob"] [] c6Decisions c6Plans).map
      (fun r => (r.founder, r.rank, r.investors_in)) =
      [("alice", 1, 3), ("bob", 2, 3)] := by
  have hdfa : decisionsFor c6Decisions "ia" =
      [⟨"ia", "invest", 7⟩, ⟨"ia", "invest", 7⟩, ⟨"ia", "invest", 6⟩] := by decide
  have hdfb : decisionsFor c6Decisions "ib" =
      [⟨"ib", "invest", 7⟩, ⟨"ib", "invest", 7⟩, ⟨"ib", "invest", 7⟩,
       ⟨"ib", "pass", 7⟩, ⟨"ib", "pass", 7⟩, ⟨"ib", "pass", 7⟩, ⟨"ib", "pass", 7⟩,
       ⟨"ib", "pass", 6⟩, ⟨"ib", "pass", 6⟩, ⟨"ib", "pass", 6⟩] := by decide
  have hmeanA : meanConviction c6Decisions "ia" = 20 / 3 := by
    rw [meanConviction, hdfa]
    norm_num
  have hmeanB : meanConviction c6Decisions "ib" = 67 / 10 := by
    rw [meanConviction, hdfb]
    norm_num
  have hroundA : roundTo1 (20 / 3 : ℚ) = 67 / 10 := by
    have hfl : (⌊(10 * (20 / 3 : ℚ))⌋ : ℤ) = 66 := by norm_num
    rw [roundTo1, roundHalfEven, hfl]
    norm_num
  have hroundB : roundTo1 (67 / 10 : ℚ) = 67 / 10 := by
    have hfl : (⌊(10 * (67 / 10 : ℚ))⌋ : ℤ) = 67 := by norm_num
    rw [roundTo1, roundHalfEven, hfl]
    norm_num [Int.even_iff]
  have hrowA : baseRow c6Plans [] c6Decisions "alice" =
      ⟨0, "alice", "ia", "", 3, 3, 67 / 10, ""⟩ := by
    have hflt : ((decisionsFor c6Decisions "ia").filter
        (fun d => d.decision == "invest")).length = 3 := by decide
    have hlen : (decisionsFor c6Decisions "ia").length = 3 := by decide
    simp [baseRow, c6Plans, hmeanA, hroundA, hflt, hlen]
  have hrowB : baseRow c6Plans [] c6Decisions "bob" =
      ⟨0, "bob", "ib", "", 3, 10, 67 / 10, ""⟩ := by
    have hflt : ((decisionsFor c6Decisions "ib").filter
        (fun d => d.decision == "invest")).length = 3 := by decide
    have hlen : (decisionsFor c6Decisions "ib").length = 10 := by decide
    simp [baseRow, c6Plans, hmeanB, hroundB, hflt, hlen]
  have hle : rowLe (⟨0, "alice", "ia", "", 3, 3, 67 / 10, ""⟩ : PortfolioRow)
      ⟨0, "bob", "ib", "", 3, 10, 67 / 10, ""⟩ := Or.inr ⟨rfl, le_refl _⟩
  have hsort : List.insertionSort rowLe
      [(⟨0, "alice", "ia", "", 3, 3, 67 / 10, ""⟩ : PortfolioRow),
       ⟨0, "bob", "ib", "", 3, 10, 67 / 10, ""⟩] =
      [⟨0, "alice", "ia", "", 3, 3, 67 / 10, ""⟩,
       ⟨0, "bob", "ib", "", 3, 10, 67 / 10, ""⟩] := by
    simp [List.insertionSort, List.orderedInsert, hle]
  constructor
  · rw [hmeanA, hmeanB]
    norm_num
  · rw [build_portfolio_report]
    simp only [List.map_cons, List.map_nil, hrowA, hrowB]
    rw [hsort]
    simp [assignRanksFrom]

lemma hitFromB_cons_succ (oc cc : Char) (st : ScanState) (c : Char) (rest : List Char)
    (k : Nat) :
    hitFromB oc cc st (c :: rest) (k + 1) =
      hitFromB oc cc (scanStep oc cc st c) rest k := by
  simp [hitFromB, List.take_succ_cons, List.foldl_cons]

lemma hitFromB_cons_zero (oc cc : Char) (st : ScanState) (c : Char) (rest : List Char) :
    hitFromB oc cc st (c :: rest) 0 = scanHit oc cc st c := by
  simp [hitFromB]

lemma findCloseAux_sound (oc cc : Char) :
    ∀ (cs : List Char) (st : ScanState) (i e : Nat),
      findCloseAux oc cc cs st i = some e →
      i ≤ e ∧ hitFromB oc cc st cs (e - i) = true ∧
        ∀ k < e - i, hitFromB oc cc st cs k = false := by
  intro cs
  induction cs with
  | nil => intro st i e h; exact absurd h (by simp [findCloseAux])
  | cons c rest ih =>
      intro st i e h
      rw [findCloseAux] at h
      by_cases hhit : scanHit oc cc st c = true
      · rw [if_pos hhit] at h
        have he : e = i := (Option.some.inj h).symm
        subst he
        refine ⟨le_refl e, ?_, ?_⟩
        · simpa [hitFromB_cons_zero] using hhit
        · intro k hk
          omega
      · rw [if_neg hhit] at h
        obtain ⟨h1, h2, h3⟩ := ih (scanStep oc cc st c) (i + 1) e h
        refine ⟨by omega, ?_, ?_⟩
        · rw [show e - i = (e - (i + 1)) + 1 by omega, hitFromB_cons_succ]
          exact h2
        · intro k hk
          cases k with
          | zero =>
              rw [hitFromB_cons_zero]
              exact Bool.eq_false_iff.mpr hhit
          | succ m =>
              rw [hitFromB_cons_succ]
              exact h3 m (by omega)

lemma pyFindChar_some (c : Char) :
    ∀ (cs : List Char) (i : Nat), pyFindChar c cs = some i →
      cs.get? i = some c ∧ ∀ j < i, cs.get? j ≠ some c := by
  intro cs
  induction cs with
  | nil => intro i h; exact absurd h (by simp [pyFindChar])
  | cons x rest ih =>
      intro i h
      rw [pyFindChar] at h
      by_cases hx : x = c
      · rw [if_pos hx] at h
        have : i = 0 := (Option.some.inj h).symm
        subst this
        subst hx
        exact ⟨rfl, fun j hj => absurd hj (by omega)⟩
      · rw [if_neg hx] at h
        cases hrec : pyFindChar c rest with
        | none => rw [hrec] at h; exact absurd h (by simp)
        | some i' =>
            rw [hrec] at h
            have hi : i = i' + 1 := by
              simpa using (Option.some.inj h).symm
            subst hi
            obtain ⟨hg, hmin⟩ := ih i' hrec
            refine ⟨by simpa using hg, ?_⟩
            intro j hj
            cases j with
            | zero => simpa using hx
            | succ m =>
                have : rest.get? m ≠ some c := hmin m (by omega)
                simpa using this

lemma pyFindChar_none (c : Char) :
    ∀ (cs : List Char), pyFindChar c cs = none → ∀ j, cs.get? j ≠ some c := by
  intro cs
  induction cs with
  | nil => intro _ j; simp
  | cons x rest ih =>
      intro h j
      rw [pyFindChar] at h
      by_cases hx : x = c
      · rw [if_pos hx] at h; exact absurd h (by simp)
      · rw [if_neg hx] at h
        cases j with
        | zero => simpa using hx
        | succ m =>
            have : pyFindChar c rest = none := by
              cases hrec : pyFindChar c rest with
              | none => rfl
              | some i' => rw [hrec] at h; exact absurd h (by simp)
            simpa using ih this m

lemma chooseBracket_spec (cs : List Char) (start : Nat) (oc cc : Char)
    (h : chooseBracket cs = some (start, oc, cc)) :
    cs.get? start = some oc ∧
    ((oc = '{' ∧ cc = '}') ∨ (oc = '[' ∧ cc = ']')) ∧
    ∀ j < start, cs.get? j ≠ some '{' ∧ cs.get? j ≠ some '[' := by
  cases ho : pyFindChar '{' cs with
  | none =>
      cases ha : pyFindChar '[' cs with
      | none => simp [chooseBracket, ho, ha] at h
      | some a =>
          obtain ⟨ha1, ha2⟩ := pyFindChar_some '[' cs a ha
          simp only [chooseBracket, ho, ha, Option.some.injEq, Prod.mk.injEq] at h
          obtain ⟨h1, h2, h3⟩ := h
          subst h1
          subst h2
          subst h3
          exact ⟨ha1, Or.inr ⟨rfl, rfl⟩,
            fun j hj => ⟨pyFindChar_none '{' cs ho j, ha2 j hj⟩⟩
  | some o =>
      cases ha : pyFindChar '[' cs with
      | none =>
          obtain ⟨ho1, ho2⟩ := pyFindChar_some '{' cs o ho
          simp only [chooseBracket, ho, ha, Option.some.injEq, Prod.mk.injEq] at h
          obtain ⟨h1, h2, h3⟩ := h
          subst h1
          subst h2
          subst h3
          exact ⟨ho1, Or.inl ⟨rfl, rfl⟩,
            fun j hj => ⟨ho2 j hj, pyFindChar_none '[' cs ha j⟩⟩
      | some a =>
          simp only [chooseBracket, ho, ha] at h
          by_cases hoa : o ≤ a
          · obtain ⟨ho1, ho2⟩ := pyFindChar_some '{' cs o ho
            obtain ⟨ha1, ha2⟩ := pyFindChar_some '[' cs a ha
            rw [if_pos hoa, Option.some.injEq, Prod.mk.injEq, Prod.mk.injEq] at h
            obtain ⟨h1, h2, h3⟩ := h
            subst h1
            subst h2
            subst h3
            exact ⟨ho1, Or.inl ⟨rfl, rfl⟩, fun j hj => ⟨ho2 j hj, ha2 j (by omega)⟩⟩
          · obtain ⟨ho1, ho2⟩ := pyFindChar_some '{' cs o ho
            obtain ⟨ha1, ha2⟩ := pyFindChar_some '[' cs a ha
            rw [if_neg hoa, Option.some.injEq, Prod.mk.injEq, Prod.mk.injEq] at h
            obtain ⟨h1, h2, h3⟩ := h
            subst h1
            subst h2
            subst h3
            exact ⟨ha1, Or.inr ⟨rfl, rfl⟩, fun j hj => ⟨ho2 j (by omega), ha2 j hj⟩⟩

/-- C8: When the input is not blank and, after stripping a markdown code
fence if one is present, the remaining text contains a `\x7b` or `[` and
the string-aware scan from the first of them reaches a balancing close
bracket, `extract_json` returns exactly the substring from that first
bracket through the *least* offset `e` at which the string-aware depth
count balances (brackets inside double-quoted strings are ignored and
backslash escapes honoured); text before the bracket and after the
balancing close is discarded. -/
theorem extract_json_spec (s : String) (start e : Nat) (oc cc : Char)
    (hblank : pyBlank s.toList = false)
    (hcb : chooseBracket (pyFenceStrip s.toList) = some (start, oc, cc))
    (hfind : findCloseAux oc cc ((pyFenceStrip s.toList).drop start) initScan 0 = some e) :
    extract_json s =
      String.mk (((pyFenceStrip s.toList).drop start).take (e + 1)) ∧
    (pyFenceStrip s.toList).get? start = some oc ∧
    ((oc = '{' ∧ cc = '}') ∨ (oc = '[' ∧ cc = ']')) ∧
    (∀ j < start, (pyFenceStrip s.toList).get? j ≠ some '{' ∧
      (pyFenceStrip s.toList).get? j ≠ some '[') ∧
    closesAtB oc cc ((pyFenceStrip s.toList).drop start) e = true ∧
    (∀ e' < e, closesAtB oc cc ((pyFenceStrip s.toList).drop start) e' = false) := by
  obtain ⟨hc1, hc2, hc3⟩ := chooseBracket_spec (pyFenceStrip s.toList) start oc cc hcb
  obtain ⟨hf1, hf2, hf3⟩ := findCloseAux_sound oc cc
    ((pyFenceStrip s.toList).drop start) initScan 0 e hfind
  refine ⟨?_, hc1, hc2, hc3, ?_, ?_⟩
  · have hblank2 : pyBlank s.data = false := hblank
    rw [extract_json, extractJsonChars]
    rw [if_neg (by simp [hblank2])]
    simp only [hcb, hfind]
  · rw [closesAtB]
    simpa using hf2
  · intro e' he'
    rw [closesAtB]
    exact hf3 e' (by omega)

/-- C8 witness: chain-of-thought noise, a fenced payload whose quoted
strings contain decoy brackets, and trailing text: the extractor returns
the balanced object from the stripped fence content. -/
theorem extract_json_spec_witness :
    extract_json "noise ```json\n\x7b\"a\": \"\x7d[\", \"n\": [1, 2]\x7d\n``` tail" =
      String.mk (((pyFenceStrip
        ("noise ```json\n\x7b\"a\": \"\x7d[\", \"n\": [1, 2]\x7d\n``` tail").toList).drop 0).take
        (23 + 1)) :=
  (extract_json_spec "noise ```json\n\x7b\"a\": \"\x7d[\", \"n\": [1, 2]\x7d\n``` tail"
    0 23 '{' '}' (by decide) (by decide) (by decide)).1

end VCIncubator
